import Mathlib

/-!
Shallow embedding of the chaos-exporter core (`cmd/exporter/main.go`) and
proofs about its reconciliation loop.

The program polls a metrics source and, for each polled verdict map,
registers/updates Prometheus gauge series.  We embed:

- the sanitization `strings.Replace(index, "-", "_", -1)`;
- the helper `contains`;
- the per-entry body of the `for index, verdict := range expMap` loop in
  `exporter` (registry mutation, value updates, fixed-metric updates);
- the poll loop of `exporter` (fatal on fetch error);
- the startup sequencing of `main` (env validation before registration).

Gauge values are `float64` in Go; the program only stores and republishes
them (no arithmetic), so they are modelled by `Int`.
-/

set_option autoImplicit false

namespace ChaosExporter

/-- The label set `{app_uid, engine_name, kubernetes_version, openebs_version}`
attached to every series; constant for the process lifetime. -/
structure LabelSet where
  appUid : String
  engineName : String
  kubernetesVersion : String
  openebsVersion : String
deriving DecidableEq, Repr

/-- The aggregate counters returned by `GetLitmusChaosMetrics`
(`expTotal`, `passTotal`, `failTotal`). -/
structure AggregateCounts where
  total : Int
  passed : Int
  failed : Int
deriving DecidableEq, Repr

/-- Identity of a registered collector.  In the source a collector is keyed by
its fully qualified name `BuildFQName(namespace, subsystem, name)`; the three
fixed gauges live in subsystem `engine` of namespace `c`, and each dynamic
gauge lives in subsystem `exp` with the sanitized experiment name.  The fixed
triple and the `c_exp_<s>` family are pairwise distinct, and
`c_exp_<s> = c_exp_<t>` iff `s = t`, which this inductive encodes. -/
inductive MetricName where
  | experimentsTotal
  | passedExperiments
  | failedExperiments
  | exp (sanitizedName : String)
deriving DecidableEq, Repr

/-- One gauge's per-label values: what `WithLabelValues(...).Set(v)` has stored. -/
abbrev SeriesValues := List (LabelSet × Int)

/-- The registered collectors of the process-wide Prometheus registry,
keyed by metric name. -/
abbrev Registry := List (MetricName × SeriesValues)

/-- Embeds `strings.Replace(index, "-", "_", -1)` (line 116): every hyphen
becomes an underscore, all other characters are kept. -/
def sanitizeExpName (s : String) : String :=
  String.mk (s.data.map (fun c => if c = '-' then '_' else c))

/-- Embeds the helper `contains` (lines 78-85): linear membership scan. -/
def contains : List String → String → Bool
  | [], _ => false
  | i :: rest, e => if i = e then true else contains rest e

/-- `WithLabelValues(labels...).Set(v)` on one gauge: update the value stored
for the label set, or add it if the label set was not present. -/
def setLV (l : LabelSet) (v : Int) : SeriesValues → SeriesValues
  | [] => [(l, v)]
  | (l', v') :: rest => if l' = l then (l, v) :: rest else (l', v') :: setLV l v rest

/-- Read one gauge's stored value for a label set. -/
def lookupLV : SeriesValues → LabelSet → Option Int
  | [], _ => none
  | (l', v) :: rest, l => if l' = l then some v else lookupLV rest l

/-- Keys currently registered. -/
def regNames (r : Registry) : List MetricName :=
  r.map Prod.fst

/-- Find the registered collector for a name (first match). -/
def lookupSeries : Registry → MetricName → Option SeriesValues
  | [], _ => none
  | (m, vs) :: rest, n => if m = n then some vs else lookupSeries rest n

/-- Modelled from the spec: `prometheus.MustRegister` of the client library is
outside this repository; per the spec, duplicate registration of the same
identity is a fatal condition, and a successful registration adds a fresh
(empty-valued) collector.  `none` models the fatal path. -/
def mustRegister (n : MetricName) (r : Registry) : Option Registry :=
  if n ∈ regNames r then none else some (r ++ [(n, [])])

/-- Modelled from the spec: `prometheus.Unregister` of the client library is
outside this repository; it removes the collector with the given identity
(and its stored values) from the registry, doing nothing if absent. -/
def unregister (n : MetricName) (r : Registry) : Registry :=
  r.filter (fun p => p.1 ≠ n)

/-- Set one label-set value on the collector registered under `n`
(no effect on the exposed state if `n` is not registered). -/
def setSeriesValue (n : MetricName) (l : LabelSet) (v : Int) : Registry → Registry
  | [] => []
  | (m, vs) :: rest =>
    if m = n then (m, setLV l v vs) :: setSeriesValue n l v rest
    else (m, vs) :: setSeriesValue n l v rest

/-- The mutable process state the exporter loop touches: the Prometheus
registry and the global `registeredResultMetrics` list. -/
structure ExporterState where
  registry : Registry
  registeredResultMetrics : List String
deriving DecidableEq, Repr

/-- The value registry `r` exposes for series `n` at labels `l`. -/
def regValue (r : Registry) (n : MetricName) (l : LabelSet) : Option Int :=
  match lookupSeries r n with
  | none => none
  | some vs => lookupLV vs l

/-- The value a scrape of `/metrics` would expose for series `n` at labels `l`
(`none` when the series is not registered or has no value for `l`). -/
def seriesValue (st : ExporterState) (n : MetricName) (l : LabelSet) : Option Int :=
  regValue st.registry n l

/-- Registry events emitted while reconciling, used to state which
registrations/unregistrations the code attempts. -/
inductive REvent where
  | register (n : MetricName)
  | unregister (n : MetricName)
  | set (n : MetricName) (l : LabelSet) (v : Int)
deriving DecidableEq, Repr

/-- One iteration of `for index, verdict := range expMap` (lines 115-142):
sanitize the name, then either unregister+re-register (already recorded) or
register+record (new), set the dynamic gauge, and set the three fixed gauges.
Returns the new state and the emitted registry events; `none` is the fatal
duplicate-registration path of `MustRegister`. -/
def reconcileEntry (c : AggregateCounts) (ls : LabelSet) (st : ExporterState)
    (e : String × Int) : Option (ExporterState × List REvent) :=
  let s := sanitizeExpName e.1
  let n := MetricName.exp s
  if contains st.registeredResultMetrics s then
    let r1 := unregister n st.registry
    match mustRegister n r1 with
    | none => none
    | some r2 =>
      let r3 := setSeriesValue n ls e.2 r2
      let r4 := setSeriesValue .experimentsTotal ls c.total r3
      let r5 := setSeriesValue .passedExperiments ls c.passed r4
      let r6 := setSeriesValue .failedExperiments ls c.failed r5
      some ({ registry := r6, registeredResultMetrics := st.registeredResultMetrics },
        [.unregister n, .register n, .set n ls e.2,
         .set .experimentsTotal ls c.total, .set .passedExperiments ls c.passed,
         .set .failedExperiments ls c.failed])
  else
    match mustRegister n st.registry with
    | none => none
    | some r2 =>
      let r3 := setSeriesValue n ls e.2 r2
      let r4 := setSeriesValue .experimentsTotal ls c.total r3
      let r5 := setSeriesValue .passedExperiments ls c.passed r4
      let r6 := setSeriesValue .failedExperiments ls c.failed r5
      some ({ registry := r6,
              registeredResultMetrics := st.registeredResultMetrics ++ [s] },
        [.register n, .set n ls e.2,
         .set .experimentsTotal ls c.total, .set .passedExperiments ls c.passed,
         .set .failedExperiments ls c.failed])

/-- One whole reconciliation pass of `exporter` over a polled verdict map
(the Go map is embedded as an association list in iteration order). -/
def reconcile (c : AggregateCounts) (ls : LabelSet) :
    List (String × Int) → ExporterState → Option (ExporterState × List REvent)
  | [], st => some (st, [])
  | e :: rest, st =>
    match reconcileEntry c ls st e with
    | none => none
    | some (st1, tr1) =>
      match reconcile c ls rest st1 with
      | none => none
      | some (st2, tr2) => some (st2, tr1 ++ tr2)

/-- The events of one `reconcileEntry` call (empty on the fatal path). -/
def entryTrace (c : AggregateCounts) (ls : LabelSet) (st : ExporterState)
    (e : String × Int) : List REvent :=
  match reconcileEntry c ls st e with
  | none => []
  | some (_, tr) => tr

/-- Process state right after `main` has executed its three
`prometheus.MustRegister` calls and before the first poll: the three fixed
gauges registered with no values, `registeredResultMetrics` empty. -/
def initState : ExporterState :=
  { registry := [(.experimentsTotal, []), (.passedExperiments, []), (.failedExperiments, [])],
    registeredResultMetrics := [] }

/-- `true` for a registry key the `registeredResultMetrics` list accounts for:
every dynamic key must be recorded there (fixed keys are unconstrained). -/
def dynBacked (l : List String) : MetricName → Bool
  | .exp s => contains l s
  | _ => true

/-- Well-formedness of the exporter state, established by `main` and preserved
by every loop iteration: registry keys are distinct, the three fixed gauges
are registered, and `registeredResultMetrics` records exactly the dynamic
(`exp` subsystem) keys of the registry. -/
def WF (st : ExporterState) : Prop :=
  (regNames st.registry).Nodup ∧
  MetricName.experimentsTotal ∈ regNames st.registry ∧
  MetricName.passedExperiments ∈ regNames st.registry ∧
  MetricName.failedExperiments ∈ regNames st.registry ∧
  (∀ s ∈ st.registeredResultMetrics, MetricName.exp s ∈ regNames st.registry) ∧
  (∀ n ∈ regNames st.registry, dynBacked st.registeredResultMetrics n = true)

instance (st : ExporterState) : Decidable (WF st) := by
  unfold WF; infer_instance

/-- The last verdict in the map for a given sanitized name, if any
(later entries overwrite earlier ones with the same sanitized name). -/
def lastVal : List (String × Int) → String → Option Int
  | [], _ => none
  | e :: rest, s =>
    match lastVal rest s with
    | some v => some v
    | none => if sanitizeExpName e.1 = s then some e.2 else none

/-- The four `Set` calls of one loop iteration, as a registry transformer:
the dynamic gauge for `s` is set to `v`, then the three fixed gauges are set
to the aggregate counts, all at label set `ls`. -/
def applySets (c : AggregateCounts) (ls : LabelSet) (s : String) (v : Int)
    (B : Registry) : Registry :=
  setSeriesValue .failedExperiments ls c.failed
    (setSeriesValue .passedExperiments ls c.passed
      (setSeriesValue .experimentsTotal ls c.total
        (setSeriesValue (.exp s) ls v B)))

/-- Outcome of running the poll loop on a finite schedule of fetch results:
either still polling with state `st`, or the process died (via `log.Fatal`
on a fetch error, or a registry panic) with `st` the last completed state. -/
inductive RunResult where
  | ok (st : ExporterState)
  | died (st : ExporterState)
deriving DecidableEq, Repr

/-- The poll loop of `exporter` (lines 106-145) on a finite schedule: each
iteration fetches; a fetch error is `log.Fatal` (process terminates, no
reconciliation of this or any later poll); a successful fetch is reconciled
and the loop continues. -/
def runPolls (ls : LabelSet) :
    List (Except Unit (AggregateCounts × List (String × Int))) → ExporterState → RunResult
  | [], st => .ok st
  | .error _ :: _, st => .died st
  | .ok (cnt, m) :: rest, st =>
    match reconcile cnt ls m st with
    | none => .died st
    | some (st1, _) => runPolls ls rest st1

/-- Observable steps of `main` (lines 147-205), in program order. -/
inductive MainEvent where
  | panicConfig
  | logFatalEnv
  | registerFixed (n : MetricName)
  | startExporterLoop
  | serveMetrics
deriving DecidableEq, Repr

/-- The sequencing of `main`: load config (panic on error), validate the
`CHAOSENGINE` / `APP_UUID` env values (`log.Fatal` + exit when either is
empty), then register the three fixed gauges, start the exporter goroutine,
and serve `/metrics`.  `cfgOk` abstracts whether config loading succeeded. -/
def mainSteps (cfgOk : Bool) (chaosEngine appUUID : String) : List MainEvent :=
  if cfgOk = false then [.panicConfig]
  else if chaosEngine = "" ∨ appUUID = "" then [.logFatalEnv]
  else [.registerFixed .experimentsTotal, .registerFixed .passedExperiments,
        .registerFixed .failedExperiments, .startExporterLoop, .serveMetrics]

/-- Stated from the spec's words (for comparison with `sanitizeExpName`):
"non-alphanumeric separators normalized to a single safe separator" — every
character of the sanitized name is alphanumeric or the safe separator `_`. -/
def specSeparatorFree (s : String) : Prop :=
  ∀ c ∈ s.data, c.isAlphanum = true ∨ c = '_'

instance (s : String) : Decidable (specSeparatorFree s) := by
  unfold specSeparatorFree; infer_instance

/-- A concrete label set, for witnesses. -/
def ls0 : LabelSet :=
  { appUid := "uid", engineName := "engine-0",
    kubernetesVersion := "v1", openebsVersion := "v2" }

/-- Concrete aggregate counts, for witnesses (spec §8 scenario). -/
def c0 : AggregateCounts := { total := 3, passed := 1, failed := 1 }

/-- A concrete verdict map, for witnesses (spec §8 scenario). -/
def M0 : List (String × Int) := [("pod-failure", 3)]

/-- The state reached from `initState` by reconciling `M0` with counts `c0`. -/
def st0w : ExporterState :=
  { registry := [(.experimentsTotal, [(ls0, 3)]), (.passedExperiments, [(ls0, 1)]),
      (.failedExperiments, [(ls0, 1)]), (.exp "pod_failure", [(ls0, 3)])],
    registeredResultMetrics := ["pod_failure"] }

/-- The events emitted by that first reconciliation of `M0`. -/
def tr0w : List REvent :=
  [.register (.exp "pod_failure"), .set (.exp "pod_failure") ls0 3,
   .set .experimentsTotal ls0 3, .set .passedExperiments ls0 1,
   .set .failedExperiments ls0 1]

/-! ### Basic lemmas about the registry operations -/

theorem contains_iff (l : List String) (e : String) : contains l e = true ↔ e ∈ l := by
  induction l with
  | nil => simp [contains]
  | cons i rest ih =>
    by_cases h : i = e
    · subst h; simp [contains]
    · simp [contains, h, ih, Ne.symm h]

theorem lookupLV_setLV_self (l : LabelSet) (v : Int) (vs : SeriesValues) :
    lookupLV (setLV l v vs) l = some v := by
  induction vs with
  | nil => simp [setLV, lookupLV]
  | cons p rest ih =>
    obtain ⟨l', v'⟩ := p
    by_cases h : l' = l
    · subst h; simp [setLV, lookupLV]
    · simp [setLV, lookupLV, h, ih]

theorem lookupLV_setLV_other (l l' : LabelSet) (v : Int) (vs : SeriesValues)
    (h : l' ≠ l) : lookupLV (setLV l v vs) l' = lookupLV vs l' := by
  induction vs with
  | nil => simp [setLV, lookupLV, Ne.symm h]
  | cons p rest ih =>
    obtain ⟨l0, v0⟩ := p
    by_cases h0 : l0 = l
    · subst h0; simp [setLV, lookupLV, Ne.symm h]
    · simp [setLV, lookupLV, h0, ih]

theorem lookupSeries_eq_none_of_not_mem (r : Registry) (n : MetricName)
    (h : n ∉ regNames r) : lookupSeries r n = none := by
  induction r with
  | nil => simp [lookupSeries]
  | cons p rest ih =>
    obtain ⟨m, vs⟩ := p
    simp only [regNames, List.map_cons, List.mem_cons] at h
    push_neg at h
    simp [lookupSeries, Ne.symm h.1, ih (by simpa [regNames] using h.2)]

theorem lookupSeries_isSome_of_mem (r : Registry) (n : MetricName)
    (h : n ∈ regNames r) : ∃ vs, lookupSeries r n = some vs := by
  induction r with
  | nil => simp [regNames] at h
  | cons p rest ih =>
    obtain ⟨m, vs⟩ := p
    by_cases hm : m = n
    · exact ⟨vs, by simp [lookupSeries, hm]⟩
    · simp only [regNames, List.map_cons, List.mem_cons] at h
      rcases h with h | h
      · exact absurd h.symm hm
      · obtain ⟨vs', hvs'⟩ := ih (by simpa [regNames] using h)
        exact ⟨vs', by simp [lookupSeries, hm, hvs']⟩

theorem lookupSeries_append (r1 r2 : Registry) (n : MetricName) :
    lookupSeries (r1 ++ r2) n =
      match lookupSeries r1 n with
      | some vs => some vs
      | none => lookupSeries r2 n := by
  induction r1 with
  | nil => simp [lookupSeries]
  | cons p rest ih =>
    obtain ⟨m, vs⟩ := p
    by_cases hm : m = n
    · simp [lookupSeries, hm]
    · simp [lookupSeries, hm, ih]

theorem regNames_append (r1 r2 : Registry) :
    regNames (r1 ++ r2) = regNames r1 ++ regNames r2 := by
  simp [regNames]

theorem mem_regNames_unregister (n : MetricName) (r : Registry) (m : MetricName) :
    m ∈ regNames (unregister n r) ↔ m ∈ regNames r ∧ m ≠ n := by
  simp only [regNames, unregister, List.mem_map, List.mem_filter, decide_eq_true_eq]
  constructor
  · rintro ⟨a, ⟨ha, hne⟩, rfl⟩
    exact ⟨⟨a, ha, rfl⟩, hne⟩
  · rintro ⟨⟨a, ha, rfl⟩, hne⟩
    exact ⟨a, ⟨ha, hne⟩, rfl⟩

theorem nodup_regNames_unregister (n : MetricName) (r : Registry)
    (h : (regNames r).Nodup) : (regNames (unregister n r)).Nodup :=
  List.Nodup.sublist (List.Sublist.map Prod.fst (List.filter_sublist r)) h

theorem lookupSeries_unregister (n : MetricName) (r : Registry) (m : MetricName) :
    lookupSeries (unregister n r) m = if m = n then none else lookupSeries r m := by
  induction r with
  | nil => simp [unregister, lookupSeries]
  | cons p rest ih =>
    obtain ⟨k, vs⟩ := p
    by_cases hk : k = n
    · subst hk
      have hdrop : unregister k ((k, vs) :: rest) = unregister k rest := by
        simp [unregister, List.filter_cons]
      rw [hdrop, ih]
      by_cases hm : m = k
      · simp [hm]
      · simp [hm, lookupSeries, Ne.symm hm]
    · have hkeep : unregister n ((k, vs) :: rest) = (k, vs) :: unregister n rest := by
        simp [unregister, List.filter_cons, hk]
      rw [hkeep]
      by_cases hm : k = m
      · subst hm
        simp [lookupSeries, hk]
      · simp [lookupSeries, hm, ih]

theorem regNames_setSeriesValue (n : MetricName) (l : LabelSet) (v : Int) (r : Registry) :
    regNames (setSeriesValue n l v r) = regNames r := by
  induction r with
  | nil => simp [setSeriesValue]
  | cons p rest ih =>
    obtain ⟨m, vs⟩ := p
    by_cases hm : m = n
    · simp [setSeriesValue, hm, regNames, List.map_cons] at ih ⊢
      simpa [regNames] using ih
    · simp [setSeriesValue, hm, regNames, List.map_cons] at ih ⊢
      simpa [regNames] using ih

theorem lookupSeries_setSeriesValue (n : MetricName) (l : LabelSet) (v : Int)
    (r : Registry) (m : MetricName) :
    lookupSeries (setSeriesValue n l v r) m =
      if m = n then (lookupSeries r n).map (setLV l v) else lookupSeries r m := by
  induction r with
  | nil => simp [setSeriesValue, lookupSeries]
  | cons p rest ih =>
    obtain ⟨k, vs⟩ := p
    by_cases hk : k = n
    · subst hk
      by_cases hm : m = k
      · subst hm; simp [setSeriesValue, lookupSeries]
      · simp [setSeriesValue, lookupSeries, hm, Ne.symm hm] at ih ⊢
        simpa [hm] using ih
    · by_cases hm : k = m
      · subst hm
        simp [setSeriesValue, lookupSeries, hk, Ne.symm hk]
      · simp [setSeriesValue, lookupSeries, hk, hm] at ih ⊢
        exact ih

theorem mustRegister_some (n : MetricName) (r : Registry) (h : n ∉ regNames r) :
    mustRegister n r = some (r ++ [(n, [])]) := by
  simp [mustRegister, h]

theorem dynBacked_mono (l : List String) (s : String) (n : MetricName)
    (h : dynBacked l n = true) : dynBacked (l ++ [s]) n = true := by
  cases n with
  | exp s' =>
    simp only [dynBacked, contains_iff] at h ⊢
    simp [h]
  | experimentsTotal => rfl
  | passedExperiments => rfl
  | failedExperiments => rfl

theorem lookupSeries_snoc_empty (n : MetricName) (r : Registry)
    (hn : lookupSeries r n = none) (m : MetricName) :
    lookupSeries (r ++ [(n, [])]) m = if m = n then some [] else lookupSeries r m := by
  rw [lookupSeries_append]
  by_cases hm : m = n
  · subst hm; rw [hn]; simp [lookupSeries]
  · cases h : lookupSeries r m with
    | some vs => simp [hm]
    | none => simp [lookupSeries, hm, Ne.symm hm]

theorem lookupSeries_reregBase (n : MetricName) (r : Registry) (m : MetricName) :
    lookupSeries (unregister n r ++ [(n, [])]) m =
      if m = n then some [] else lookupSeries r m := by
  rw [lookupSeries_snoc_empty n _ (by rw [lookupSeries_unregister]; simp) m]
  by_cases hm : m = n
  · simp [hm]
  · simp [hm, lookupSeries_unregister]

/-- Equation lemma: the already-recorded branch of `reconcileEntry`
(lines 128-131): unregister, re-register, set value, set fixed gauges. -/
theorem reconcileEntry_registered_eq (c : AggregateCounts) (ls : LabelSet)
    (st : ExporterState) (e : String × Int)
    (hc : contains st.registeredResultMetrics (sanitizeExpName e.1) = true) :
    reconcileEntry c ls st e =
      some ({ registry :=
                applySets c ls (sanitizeExpName e.1) e.2
                  (unregister (.exp (sanitizeExpName e.1)) st.registry ++
                    [(.exp (sanitizeExpName e.1), [])]),
              registeredResultMetrics := st.registeredResultMetrics },
        [.unregister (.exp (sanitizeExpName e.1)), .register (.exp (sanitizeExpName e.1)),
         .set (.exp (sanitizeExpName e.1)) ls e.2, .set .experimentsTotal ls c.total,
         .set .passedExperiments ls c.passed, .set .failedExperiments ls c.failed]) := by
  have hnot : MetricName.exp (sanitizeExpName e.1) ∉
      regNames (unregister (.exp (sanitizeExpName e.1)) st.registry) := by
    intro hmem
    exact ((mem_regNames_unregister _ _ _).mp hmem).2 rfl
  simp [reconcileEntry, hc, mustRegister, hnot, applySets]

/-- Equation lemma: the fresh branch of `reconcileEntry` (lines 132-136):
register, record the name, set value, set fixed gauges. -/
theorem reconcileEntry_fresh_eq (c : AggregateCounts) (ls : LabelSet)
    (st : ExporterState) (e : String × Int)
    (hc : contains st.registeredResultMetrics (sanitizeExpName e.1) = false)
    (hnot : MetricName.exp (sanitizeExpName e.1) ∉ regNames st.registry) :
    reconcileEntry c ls st e =
      some ({ registry :=
                applySets c ls (sanitizeExpName e.1) e.2
                  (st.registry ++ [(.exp (sanitizeExpName e.1), [])]),
              registeredResultMetrics :=
                st.registeredResultMetrics ++ [sanitizeExpName e.1] },
        [.register (.exp (sanitizeExpName e.1)), .set (.exp (sanitizeExpName e.1)) ls e.2,
         .set .experimentsTotal ls c.total, .set .passedExperiments ls c.passed,
         .set .failedExperiments ls c.failed]) := by
  simp [reconcileEntry, hc, mustRegister, hnot, applySets]

/-- Lookup through the four `Set` calls one loop iteration performs. -/
theorem lookupSeries_applySets (c : AggregateCounts) (ls : LabelSet) (s : String)
    (v : Int) (B : Registry) (m : MetricName) :
    lookupSeries (applySets c ls s v B) m =
      match m with
      | .exp s' =>
        if s' = s then (lookupSeries B (.exp s)).map (setLV ls v) else lookupSeries B m
      | .experimentsTotal => (lookupSeries B .experimentsTotal).map (setLV ls c.total)
      | .passedExperiments => (lookupSeries B .passedExperiments).map (setLV ls c.passed)
      | .failedExperiments => (lookupSeries B .failedExperiments).map (setLV ls c.failed) := by
  cases m with
  | experimentsTotal => simp [applySets, lookupSeries_setSeriesValue]
  | passedExperiments => simp [applySets, lookupSeries_setSeriesValue]
  | failedExperiments => simp [applySets, lookupSeries_setSeriesValue]
  | exp s' =>
    by_cases hs : s' = s
    · subst hs; simp [applySets, lookupSeries_setSeriesValue]
    · simp [applySets, lookupSeries_setSeriesValue, hs]

theorem regNames_applySets (c : AggregateCounts) (ls : LabelSet) (s : String) (v : Int)
    (B : Registry) : regNames (applySets c ls s v B) = regNames B := by
  simp [applySets, regNames_setSeriesValue]

/-- Values exposed after the four `Set` calls, relative to a base registry `B`
that holds a fresh empty collector for `exp s` and agrees with `r` elsewhere. -/
theorem regValue_applySets (c : AggregateCounts) (ls : LabelSet) (s : String) (v : Int)
    (B r : Registry)
    (hB : ∀ m, lookupSeries B m = if m = MetricName.exp s then some [] else lookupSeries r m) :
    (∀ l, regValue (applySets c ls s v B) (.exp s) l = if l = ls then some v else none) ∧
    (∀ s' l, s' ≠ s → regValue (applySets c ls s v B) (.exp s') l = regValue r (.exp s') l) ∧
    (MetricName.experimentsTotal ∈ regNames r →
      ∀ l, regValue (applySets c ls s v B) .experimentsTotal l =
        if l = ls then some c.total else regValue r .experimentsTotal l) ∧
    (MetricName.passedExperiments ∈ regNames r →
      ∀ l, regValue (applySets c ls s v B) .passedExperiments l =
        if l = ls then some c.passed else regValue r .passedExperiments l) ∧
    (MetricName.failedExperiments ∈ regNames r →
      ∀ l, regValue (applySets c ls s v B) .failedExperiments l =
        if l = ls then some c.failed else regValue r .failedExperiments l) := by
  refine ⟨?_, ?_, ?_, ?_, ?_⟩
  · intro l
    have hs := hB (MetricName.exp s)
    rw [if_pos rfl] at hs
    by_cases hl : l = ls
    · subst hl; simp [regValue, lookupSeries_applySets, hs, setLV, lookupLV]
    · simp [regValue, lookupSeries_applySets, hs, setLV, lookupLV, hl, Ne.symm hl]
  · intro s' l hne
    have hs' := hB (MetricName.exp s')
    rw [if_neg (by simp [hne])] at hs'
    simp [regValue, lookupSeries_applySets, hne, hs']
  · intro hmem l
    obtain ⟨vs0, hvs0⟩ := lookupSeries_isSome_of_mem r _ hmem
    have hfix := hB MetricName.experimentsTotal
    rw [if_neg (by simp)] at hfix
    by_cases hl : l = ls
    · subst hl
      simp [regValue, lookupSeries_applySets, hfix, hvs0, lookupLV_setLV_self]
    · simp [regValue, lookupSeries_applySets, hfix, hvs0,
        lookupLV_setLV_other _ _ _ _ hl, hl]
  · intro hmem l
    obtain ⟨vs0, hvs0⟩ := lookupSeries_isSome_of_mem r _ hmem
    have hfix := hB MetricName.passedExperiments
    rw [if_neg (by simp)] at hfix
    by_cases hl : l = ls
    · subst hl
      simp [regValue, lookupSeries_applySets, hfix, hvs0, lookupLV_setLV_self]
    · simp [regValue, lookupSeries_applySets, hfix, hvs0,
        lookupLV_setLV_other _ _ _ _ hl, hl]
  · intro hmem l
    obtain ⟨vs0, hvs0⟩ := lookupSeries_isSome_of_mem r _ hmem
    have hfix := hB MetricName.failedExperiments
    rw [if_neg (by simp)] at hfix
    by_cases hl : l = ls
    · subst hl
      simp [regValue, lookupSeries_applySets, hfix, hvs0, lookupLV_setLV_self]
    · simp [regValue, lookupSeries_applySets, hfix, hvs0,
        lookupLV_setLV_other _ _ _ _ hl, hl]

/-- Full characterization of one loop iteration from a well-formed state:
it never hits the fatal duplicate-registration path, preserves
well-formedness, records the sanitized name iff it was new, adds exactly
the dynamic key for the entry to the registered set, and sets the entry's
gauge and the three fixed gauges at the poll's label set. -/
theorem reconcileEntry_spec (c : AggregateCounts) (ls : LabelSet) (st : ExporterState)
    (e : String × Int) (h : WF st) :
    ∃ st' tr, reconcileEntry c ls st e = some (st', tr) ∧
      WF st' ∧
      st'.registeredResultMetrics =
        (if sanitizeExpName e.1 ∈ st.registeredResultMetrics then st.registeredResultMetrics
         else st.registeredResultMetrics ++ [sanitizeExpName e.1]) ∧
      (∀ m, m ∈ regNames st'.registry ↔
        m ∈ regNames st.registry ∨ m = .exp (sanitizeExpName e.1)) ∧
      (∀ l, seriesValue st' (.exp (sanitizeExpName e.1)) l =
        if l = ls then some e.2 else none) ∧
      (∀ s' l, s' ≠ sanitizeExpName e.1 →
        seriesValue st' (.exp s') l = seriesValue st (.exp s') l) ∧
      (∀ l, seriesValue st' .experimentsTotal l =
        if l = ls then some c.total else seriesValue st .experimentsTotal l) ∧
      (∀ l, seriesValue st' .passedExperiments l =
        if l = ls then some c.passed else seriesValue st .passedExperiments l) ∧
      (∀ l, seriesValue st' .failedExperiments l =
        if l = ls then some c.failed else seriesValue st .failedExperiments l) := by
  obtain ⟨hnd, hft, hfp, hff, hlist, hdyn⟩ := h
  by_cases hc : contains st.registeredResultMetrics (sanitizeExpName e.1) = true
  · have hmem : sanitizeExpName e.1 ∈ st.registeredResultMetrics := (contains_iff _ _).mp hc
    have hB := lookupSeries_reregBase (MetricName.exp (sanitizeExpName e.1)) st.registry
    obtain ⟨hv1, hv2, hv3, hv4, hv5⟩ :=
      regValue_applySets c ls (sanitizeExpName e.1) e.2 _ st.registry hB
    have hRN : regNames (applySets c ls (sanitizeExpName e.1) e.2
        (unregister (.exp (sanitizeExpName e.1)) st.registry ++
          [(.exp (sanitizeExpName e.1), [])])) =
        regNames (unregister (.exp (sanitizeExpName e.1)) st.registry) ++
          [.exp (sanitizeExpName e.1)] := by
      rw [regNames_applySets, regNames_append]; rfl
    have hnames : ∀ m, m ∈ regNames (applySets c ls (sanitizeExpName e.1) e.2
        (unregister (.exp (sanitizeExpName e.1)) st.registry ++
          [(.exp (sanitizeExpName e.1), [])])) ↔
        m ∈ regNames st.registry ∨ m = .exp (sanitizeExpName e.1) := by
      intro m
      rw [hRN]
      simp only [List.mem_append, mem_regNames_unregister, List.mem_singleton]
      tauto
    refine ⟨_, _, reconcileEntry_registered_eq c ls st e hc,
      ⟨?_, ?_, ?_, ?_, ?_, ?_⟩, ?_, hnames, ?_, ?_, ?_, ?_, ?_⟩
    · show (regNames _).Nodup
      rw [hRN]
      refine List.Nodup.append (nodup_regNames_unregister _ _ hnd)
        (List.nodup_singleton _) ?_
      intro x hx hx'
      rw [List.mem_singleton] at hx'
      exact ((mem_regNames_unregister _ _ _).mp hx).2 hx'
    · exact (hnames _).mpr (Or.inl hft)
    · exact (hnames _).mpr (Or.inl hfp)
    · exact (hnames _).mpr (Or.inl hff)
    · intro s' hs'
      exact (hnames _).mpr (Or.inl (hlist s' hs'))
    · intro m hm
      rcases (hnames m).mp hm with h1 | h1
      · exact hdyn m h1
      · subst h1; simpa [dynBacked] using hc
    · simp [if_pos hmem]
    · intro l; simpa [seriesValue] using hv1 l
    · intro s' l hne; simpa [seriesValue] using hv2 s' l hne
    · intro l; simpa [seriesValue] using hv3 hft l
    · intro l; simpa [seriesValue] using hv4 hfp l
    · intro l; simpa [seriesValue] using hv5 hff l
  · have hc' : contains st.registeredResultMetrics (sanitizeExpName e.1) = false := by
      simpa using hc
    have hsnot : sanitizeExpName e.1 ∉ st.registeredResultMetrics := by
      intro hmem
      rw [(contains_iff _ _).mpr hmem] at hc'
      simp at hc'
    have hnot : MetricName.exp (sanitizeExpName e.1) ∉ regNames st.registry := by
      intro hm
      have hd := hdyn _ hm
      simp only [dynBacked] at hd
      rw [hd] at hc'
      simp at hc'
    have hB := lookupSeries_snoc_empty (MetricName.exp (sanitizeExpName e.1)) st.registry
      (lookupSeries_eq_none_of_not_mem _ _ hnot)
    obtain ⟨hv1, hv2, hv3, hv4, hv5⟩ :=
      regValue_applySets c ls (sanitizeExpName e.1) e.2 _ st.registry hB
    have hRN : regNames (applySets c ls (sanitizeExpName e.1) e.2
        (st.registry ++ [(.exp (sanitizeExpName e.1), [])])) =
        regNames st.registry ++ [.exp (sanitizeExpName e.1)] := by
      rw [regNames_applySets, regNames_append]; rfl
    have hnames : ∀ m, m ∈ regNames (applySets c ls (sanitizeExpName e.1) e.2
        (st.registry ++ [(.exp (sanitizeExpName e.1), [])])) ↔
        m ∈ regNames st.registry ∨ m = .exp (sanitizeExpName e.1) := by
      intro m
      rw [hRN]
      simp [List.mem_append]
    refine ⟨_, _, reconcileEntry_fresh_eq c ls st e hc' hnot,
      ⟨?_, ?_, ?_, ?_, ?_, ?_⟩, ?_, hnames, ?_, ?_, ?_, ?_, ?_⟩
    · show (regNames _).Nodup
      rw [hRN]
      refine List.Nodup.append hnd (List.nodup_singleton _) ?_
      intro x hx hx'
      rw [List.mem_singleton] at hx'
      subst hx'
      exact hnot hx
    · exact (hnames _).mpr (Or.inl hft)
    · exact (hnames _).mpr (Or.inl hfp)
    · exact (hnames _).mpr (Or.inl hff)
    · intro s' hs'
      rw [List.mem_append, List.mem_singleton] at hs'
      rcases hs' with hs' | hs'
      · exact (hnames _).mpr (Or.inl (hlist s' hs'))
      · exact (hnames _).mpr (Or.inr (by rw [hs']))
    · intro m hm
      rcases (hnames m).mp hm with h1 | h1
      · exact dynBacked_mono _ _ _ (hdyn m h1)
      · subst h1
        simp only [dynBacked]
        exact (contains_iff _ _).mpr (by simp)
    · simp [if_neg hsnot]
    · intro l; simpa [seriesValue] using hv1 l
    · intro s' l hne; simpa [seriesValue] using hv2 s' l hne
    · intro l; simpa [seriesValue] using hv3 hft l
    · intro l; simpa [seriesValue] using hv4 hfp l
    · intro l; simpa [seriesValue] using hv5 hff l

/-- Full characterization of one reconciliation pass from a well-formed state:
it always succeeds, preserves well-formedness, extends the recorded names by
exactly the sanitized names of the map, extends the registered set by exactly
the dynamic keys of the map, gives each polled experiment's gauge its last
polled verdict at the poll's label set, and (when the map is non-empty) sets
the three fixed gauges to the aggregate counts. -/
theorem reconcile_spec (c : AggregateCounts) (ls : LabelSet) (M : List (String × Int))
    (st : ExporterState) (h : WF st) :
    ∃ st' tr, reconcile c ls M st = some (st', tr) ∧
      WF st' ∧
      (∀ s, s ∈ st'.registeredResultMetrics ↔
        s ∈ st.registeredResultMetrics ∨ s ∈ M.map (fun e => sanitizeExpName e.1)) ∧
      ((∀ e ∈ M, sanitizeExpName e.1 ∈ st.registeredResultMetrics) →
        st'.registeredResultMetrics = st.registeredResultMetrics) ∧
      (∀ m, m ∈ regNames st'.registry ↔
        m ∈ regNames st.registry ∨ ∃ e ∈ M, m = MetricName.exp (sanitizeExpName e.1)) ∧
      (∀ s l, seriesValue st' (.exp s) l =
        match lastVal M s with
        | some v => if l = ls then some v else none
        | none => seriesValue st (.exp s) l) ∧
      (M = [] → st' = st) ∧
      (M ≠ [] → ∀ l, seriesValue st' .experimentsTotal l =
        if l = ls then some c.total else seriesValue st .experimentsTotal l) ∧
      (M ≠ [] → ∀ l, seriesValue st' .passedExperiments l =
        if l = ls then some c.passed else seriesValue st .passedExperiments l) ∧
      (M ≠ [] → ∀ l, seriesValue st' .failedExperiments l =
        if l = ls then some c.failed else seriesValue st .failedExperiments l) := by
  induction M generalizing st with
  | nil =>
    refine ⟨st, [], rfl, h, ?_, ?_, ?_, ?_, ?_, ?_, ?_, ?_⟩
    · simp
    · intro _; rfl
    · simp
    · intro s l; simp [lastVal]
    · intro _; rfl
    · intro hne; exact absurd rfl hne
    · intro hne; exact absurd rfl hne
    · intro hne; exact absurd rfl hne
  | cons e rest ih =>
    obtain ⟨st1, tr1, heq1, hwf1, hlist1, hnm1, hdv1, hdo1, hf1, hp1, hl1⟩ :=
      reconcileEntry_spec c ls st e h
    obtain ⟨st', tr', heq', hwf', hmemL, hcondL, hmemN, hdv', hnil', hf', hp', hl'⟩ :=
      ih st1 hwf1
    have hlmem1 : ∀ s, s ∈ st1.registeredResultMetrics ↔
        s ∈ st.registeredResultMetrics ∨ s = sanitizeExpName e.1 := by
      intro s
      rw [hlist1]
      by_cases hin : sanitizeExpName e.1 ∈ st.registeredResultMetrics
      · rw [if_pos hin]
        constructor
        · exact Or.inl
        · rintro (hs | rfl)
          · exact hs
          · exact hin
      · rw [if_neg hin]
        simp [List.mem_append]
    refine ⟨st', tr1 ++ tr', ?_, hwf', ?_, ?_, ?_, ?_, ?_, ?_, ?_, ?_⟩
    · simp only [reconcile, heq1, heq']
    · intro s
      rw [hmemL s, hlmem1 s]
      simp only [List.map_cons, List.mem_cons]
      tauto
    · intro hall
      have hin : sanitizeExpName e.1 ∈ st.registeredResultMetrics :=
        hall e (List.mem_cons_self e rest)
      have h1 : st1.registeredResultMetrics = st.registeredResultMetrics := by
        rw [hlist1, if_pos hin]
      rw [hcondL (by rw [h1]; intro e' he'; exact hall e' (List.mem_cons_of_mem e he')), h1]
    · intro m
      rw [hmemN m, hnm1 m]
      constructor
      · rintro ((hm | hm) | ⟨e', he', rfl⟩)
        · exact Or.inl hm
        · exact Or.inr ⟨e, List.mem_cons_self e rest, hm⟩
        · exact Or.inr ⟨e', List.mem_cons_of_mem e he', rfl⟩
      · rintro (hm | ⟨e', he', rfl⟩)
        · exact Or.inl (Or.inl hm)
        · rcases List.mem_cons.mp he' with rfl | he'
          · exact Or.inl (Or.inr rfl)
          · exact Or.inr ⟨e', he', rfl⟩
    · intro s l
      rw [hdv' s l]
      show _ = (match
          (match lastVal rest s with
           | some v => some v
           | none => if sanitizeExpName e.1 = s then some e.2 else none) with
        | some v => if l = ls then some v else none
        | none => seriesValue st (.exp s) l)
      cases hlv : lastVal rest s with
      | some v => rfl
      | none =>
        by_cases hse : sanitizeExpName e.1 = s
        · rw [if_pos hse]
          rw [← hse]
          exact hdv1 l
        · rw [if_neg hse]
          exact hdo1 s l (fun hss => hse hss.symm)
    · intro hcons; exact absurd hcons (List.cons_ne_nil e rest)
    · intro _ l
      by_cases hrest : rest = []
      · subst hrest
        rw [hnil' rfl]
        exact hf1 l
      · rw [hf' hrest l]
        by_cases hls : l = ls
        · simp [hls]
        · rw [if_neg hls, if_neg hls, hf1 l, if_neg hls]
    · intro _ l
      by_cases hrest : rest = []
      · subst hrest
        rw [hnil' rfl]
        exact hp1 l
      · rw [hp' hrest l]
        by_cases hls : l = ls
        · simp [hls]
        · rw [if_neg hls, if_neg hls, hp1 l, if_neg hls]
    · intro _ l
      by_cases hrest : rest = []
      · subst hrest
        rw [hnil' rfl]
        exact hl1 l
      · rw [hl' hrest l]
        by_cases hls : l = ls
        · simp [hls]
        · rw [if_neg hls, if_neg hls, hl1 l, if_neg hls]

/-! ### Claim theorems -/

/-- C1, counterexample: with `pod_failure` already recorded in
`registeredResultMetrics` (state `st0w`), reconciling the entry
`("pod-failure", 3)` again does emit a registration attempt for the very same
series identity, contradicting the claim that re-registration of an
already-registered series is never attempted. -/
theorem claim_C1_counterexample :
    "pod_failure" ∈ st0w.registeredResultMetrics ∧
    REvent.register (.exp "pod_failure") ∈ entryTrace c0 ls0 st0w ("pod-failure", 3) := by
  decide

/-- C1, amended: for an experiment whose sanitized name is already recorded,
the reconciliation step first unregisters the existing series and only then
re-registers it and sets the values; a registration is never attempted while
the same identity is still registered, so from a well-formed state a whole
reconciliation pass never hits the fatal duplicate-registration condition. -/
theorem claim_C1_amended (c : AggregateCounts) (ls : LabelSet) (st : ExporterState)
    (nm : String) (v : Int) (h : WF st)
    (hmem : sanitizeExpName nm ∈ st.registeredResultMetrics) :
    (∃ st', reconcileEntry c ls st (nm, v) = some (st',
      [.unregister (.exp (sanitizeExpName nm)), .register (.exp (sanitizeExpName nm)),
       .set (.exp (sanitizeExpName nm)) ls v, .set .experimentsTotal ls c.total,
       .set .passedExperiments ls c.passed, .set .failedExperiments ls c.failed])) ∧
    (∀ M, ∃ st2 tr2, reconcile c ls M st = some (st2, tr2)) := by
  constructor
  · exact ⟨_, reconcileEntry_registered_eq c ls st (nm, v) ((contains_iff _ _).mpr hmem)⟩
  · intro M
    obtain ⟨st2, tr2, heq, _⟩ := reconcile_spec c ls M st h
    exact ⟨st2, tr2, heq⟩

/-- C1, witness for the amended theorem at the concrete state `st0w`. -/
theorem claim_C1_amended_witness :
    WF st0w ∧ sanitizeExpName "pod-failure" ∈ st0w.registeredResultMetrics ∧
    (∃ st', reconcileEntry c0 ls0 st0w ("pod-failure", 3) = some (st',
      [.unregister (.exp (sanitizeExpName "pod-failure")),
       .register (.exp (sanitizeExpName "pod-failure")),
       .set (.exp (sanitizeExpName "pod-failure")) ls0 3,
       .set .experimentsTotal ls0 c0.total, .set .passedExperiments ls0 c0.passed,
       .set .failedExperiments ls0 c0.failed])) :=
  ⟨by decide, by decide,
    (claim_C1_amended c0 ls0 st0w "pod-failure" 3 (by decide) (by decide)).1⟩

/-- C2: from a well-formed state, a reconciliation pass never takes the fatal
path, whatever the verdict map (malformed names included: they are only
sanitized), and afterwards every experiment name the source reported has
exactly one registered series under its sanitized name. -/
theorem claim_C2 (c : AggregateCounts) (ls : LabelSet) (M : List (String × Int))
    (st : ExporterState) (h : WF st) :
    ∃ st' tr, reconcile c ls M st = some (st', tr) ∧
      ∀ e ∈ M, (regNames st'.registry).count (.exp (sanitizeExpName e.1)) = 1 := by
  obtain ⟨st', tr, heq, hwf', _, _, hmemN, _⟩ := reconcile_spec c ls M st h
  refine ⟨st', tr, heq, ?_⟩
  intro e he
  exact List.count_eq_one_of_mem hwf'.1 ((hmemN _).mpr (Or.inr ⟨e, he, rfl⟩))

/-- C2, witness at a map containing a malformed (empty) name. -/
theorem claim_C2_witness :
    WF initState ∧
    (∃ st' tr, reconcile c0 ls0 [("pod-failure", 3), ("", 0)] initState = some (st', tr) ∧
      ∀ e ∈ [(("pod-failure" : String), (3 : Int)), ("", 0)],
        (regNames st'.registry).count (.exp (sanitizeExpName e.1)) = 1) :=
  ⟨by decide, claim_C2 c0 ls0 [("pod-failure", 3), ("", 0)] initState (by decide)⟩

/-- C3, counterexample: sanitization only replaces hyphens, so for the source
name `a.b` the sanitized name still contains the non-alphanumeric separator
`.`, contradicting the claim that every non-alphanumeric separator is
normalized and none remains. -/
theorem claim_C3_counterexample : ¬ specSeparatorFree (sanitizeExpName "a.b") := by
  decide

/-- C3, amended: the sanitized series name is obtained by replacing every
hyphen with an underscore, all other characters unchanged; in particular no
hyphen remains in the sanitized name. -/
theorem claim_C3_amended (s : String) :
    '-' ∉ (sanitizeExpName s).data ∧
    (sanitizeExpName s).data = s.data.map (fun c => if c = '-' then '_' else c) := by
  constructor
  · intro hmem
    simp only [sanitizeExpName, List.mem_map] at hmem
    obtain ⟨c, _, hc⟩ := hmem
    by_cases h : c = '-'
    · rw [if_pos h] at hc
      exact absurd hc (by decide)
    · rw [if_neg h] at hc
      exact h hc
  · rfl

/-- C4, counterexample: the fixed gauges are set inside the per-entry loop,
so a poll whose verdict map is empty performs no update at all: after
reconciling counts `(3,1,1)` with the empty map from the freshly started
state, `experiment_count` exposes no value, not the input's total. -/
theorem claim_C4_counterexample :
    reconcile c0 ls0 [] initState = some (initState, []) ∧
    seriesValue initState .experimentsTotal ls0 ≠ some c0.total := by
  decide

/-- C4, amended: for every valid aggregate counts and every NON-EMPTY verdict
map, one reconciliation pass from a well-formed state leaves the three fixed
series reporting exactly the input's total, passed and failed values at the
constant label set. -/
theorem claim_C4_amended (c : AggregateCounts) (ls : LabelSet)
    (M : List (String × Int)) (st : ExporterState) (h : WF st) (hne : M ≠ []) :
    ∃ st' tr, reconcile c ls M st = some (st', tr) ∧
      seriesValue st' .experimentsTotal ls = some c.total ∧
      seriesValue st' .passedExperiments ls = some c.passed ∧
      seriesValue st' .failedExperiments ls = some c.failed := by
  obtain ⟨st', tr, heq, _, _, _, _, _, _, hf, hp, hl⟩ := reconcile_spec c ls M st h
  exact ⟨st', tr, heq, by rw [hf hne ls, if_pos rfl], by rw [hp hne ls, if_pos rfl],
    by rw [hl hne ls, if_pos rfl]⟩

/-- C4, witness at the spec §8 scenario. -/
theorem claim_C4_amended_witness :
    WF initState ∧ M0 ≠ [] ∧
    (∃ st' tr, reconcile c0 ls0 M0 initState = some (st', tr) ∧
      seriesValue st' .experimentsTotal ls0 = some c0.total ∧
      seriesValue st' .passedExperiments ls0 = some c0.passed ∧
      seriesValue st' .failedExperiments ls0 = some c0.failed) :=
  ⟨by decide, by decide, claim_C4_amended c0 ls0 M0 initState (by decide) (by decide)⟩

/-- C5: if the metrics source returns an error on some poll, the process dies
right there: whatever polls would have followed, no reconciliation happens for
the failing poll or any later one, and the state is exactly the one the
preceding successful polls produced. -/
theorem claim_C5 (ls : LabelSet)
    (oks rest : List (Except Unit (AggregateCounts × List (String × Int))))
    (st st' : ExporterState) (e : Unit)
    (h : runPolls ls oks st = .ok st') :
    runPolls ls (oks ++ Except.error e :: rest) st = .died st' := by
  induction oks generalizing st with
  | nil =>
    cases h
    rfl
  | cons p oks ih =>
    cases p with
    | error u => exact absurd h (by simp [runPolls])
    | ok pr =>
      obtain ⟨cnt, m⟩ := pr
      have h' : (match reconcile cnt ls m st with
          | none => RunResult.died st
          | some (st1, _) => runPolls ls oks st1) = RunResult.ok st' := h
      cases hrec : reconcile cnt ls m st with
      | none =>
        rw [hrec] at h'
        exact absurd h' (by simp)
      | some pair =>
        obtain ⟨st1, tr1⟩ := pair
        rw [hrec] at h'
        have h'' : runPolls ls oks st1 = RunResult.ok st' := h'
        have hgoal : runPolls ls ((Except.ok (cnt, m) :: oks) ++ Except.error e :: rest) st =
            runPolls ls (oks ++ Except.error e :: rest) st1 := by
          show (match reconcile cnt ls m st with
            | none => RunResult.died st
            | some (st1, _) => runPolls ls (oks ++ Except.error e :: rest) st1) = _
          rw [hrec]
        rw [hgoal]
        exact ih st1 h''

/-- C5, witness: one successful poll, then a fetch error, then a poll that is
never reached. -/
theorem claim_C5_witness :
    runPolls ls0 [Except.ok (c0, M0)] initState = .ok st0w ∧
    runPolls ls0 (Except.ok (c0, M0) :: Except.error () :: [Except.ok (c0, M0)])
      initState = .died st0w :=
  ⟨by decide, claim_C5 ls0 [Except.ok (c0, M0)] [Except.ok (c0, M0)] initState st0w ()
    (by decide)⟩

/-- C6: reconciling the same verdict map twice in a row from a well-formed
state leaves the set of registered series (and the recorded-name list) after
the second pass identical to what it was after the first pass. -/
theorem claim_C6 (c : AggregateCounts) (ls : LabelSet) (M : List (String × Int))
    (st : ExporterState) (h : WF st) :
    ∃ st1 tr1 st2 tr2, reconcile c ls M st = some (st1, tr1) ∧
      reconcile c ls M st1 = some (st2, tr2) ∧
      st2.registeredResultMetrics = st1.registeredResultMetrics ∧
      (∀ m, m ∈ regNames st2.registry ↔ m ∈ regNames st1.registry) := by
  obtain ⟨st1, tr1, heq1, hwf1, hmemL1, _, hmemN1, _⟩ := reconcile_spec c ls M st h
  obtain ⟨st2, tr2, heq2, _, _, hcondL2, hmemN2, _⟩ := reconcile_spec c ls M st1 hwf1
  refine ⟨st1, tr1, st2, tr2, heq1, heq2, ?_, ?_⟩
  · exact hcondL2 (fun e he => (hmemL1 _).mpr (Or.inr (List.mem_map_of_mem _ he)))
  · intro m
    rw [hmemN2 m]
    constructor
    · rintro (hm | ⟨e, he, rfl⟩)
      · exact hm
      · exact (hmemN1 _).mpr (Or.inr ⟨e, he, rfl⟩)
    · exact Or.inl

/-- C6, witness at the concrete scenario. -/
theorem claim_C6_witness :
    WF initState ∧
    (∃ st1 tr1 st2 tr2, reconcile c0 ls0 M0 initState = some (st1, tr1) ∧
      reconcile c0 ls0 M0 st1 = some (st2, tr2) ∧
      st2.registeredResultMetrics = st1.registeredResultMetrics ∧
      (∀ m, m ∈ regNames st2.registry ↔ m ∈ regNames st1.registry)) :=
  ⟨by decide, claim_C6 c0 ls0 M0 initState (by decide)⟩

/-- C7: reconciling identical source data twice from a well-formed state
leaves every series exposing the same value as after reconciling it once. -/
theorem claim_C7 (c : AggregateCounts) (ls : LabelSet) (M : List (String × Int))
    (st : ExporterState) (h : WF st) :
    ∃ st1 tr1 st2 tr2, reconcile c ls M st = some (st1, tr1) ∧
      reconcile c ls M st1 = some (st2, tr2) ∧
      (∀ n l, seriesValue st2 n l = seriesValue st1 n l) := by
  obtain ⟨st1, tr1, heq1, hwf1, _, _, _, hdv1, hnil1, hf1, hp1, hl1⟩ :=
    reconcile_spec c ls M st h
  obtain ⟨st2, tr2, heq2, _, _, _, _, hdv2, hnil2, hf2, hp2, hl2⟩ :=
    reconcile_spec c ls M st1 hwf1
  refine ⟨st1, tr1, st2, tr2, heq1, heq2, ?_⟩
  intro n l
  by_cases hM : M = []
  · rw [hnil2 hM]
  · cases n with
    | exp s =>
      rw [hdv2 s l, hdv1 s l]
      cases hlv : lastVal M s with
      | some v => rfl
      | none => rfl
    | experimentsTotal =>
      by_cases hls : l = ls
      · rw [hf2 hM l, if_pos hls, hls, hf1 hM ls, if_pos rfl]
      · rw [hf2 hM l, if_neg hls]
    | passedExperiments =>
      by_cases hls : l = ls
      · rw [hp2 hM l, if_pos hls, hls, hp1 hM ls, if_pos rfl]
      · rw [hp2 hM l, if_neg hls]
    | failedExperiments =>
      by_cases hls : l = ls
      · rw [hl2 hM l, if_pos hls, hls, hl1 hM ls, if_pos rfl]
      · rw [hl2 hM l, if_neg hls]

/-- C7, witness at the concrete scenario. -/
theorem claim_C7_witness :
    WF initState ∧
    (∃ st1 tr1 st2 tr2, reconcile c0 ls0 M0 initState = some (st1, tr1) ∧
      reconcile c0 ls0 M0 st1 = some (st2, tr2) ∧
      (∀ n l, seriesValue st2 n l = seriesValue st1 n l)) :=
  ⟨by decide, claim_C7 c0 ls0 M0 initState (by decide)⟩

/-- C8: the recorded-name registry starts empty at process startup, and a
reconciliation step from a well-formed state never removes anything: every
recorded name and every registered series present before the step is still
present after it. -/
theorem claim_C8 (c : AggregateCounts) (ls : LabelSet) (M : List (String × Int))
    (st : ExporterState) (h : WF st) :
    ∃ st' tr, reconcile c ls M st = some (st', tr) ∧
      initState.registeredResultMetrics = [] ∧
      (∀ s ∈ st.registeredResultMetrics, s ∈ st'.registeredResultMetrics) ∧
      (∀ m ∈ regNames st.registry, m ∈ regNames st'.registry) := by
  obtain ⟨st', tr, heq, _, hmemL, _, hmemN, _⟩ := reconcile_spec c ls M st h
  exact ⟨st', tr, heq, rfl, fun s hs => (hmemL s).mpr (Or.inl hs),
    fun m hm => (hmemN m).mpr (Or.inl hm)⟩

/-- C8, witness at the concrete scenario. -/
theorem claim_C8_witness :
    WF st0w ∧
    (∃ st' tr, reconcile c0 ls0 M0 st0w = some (st', tr) ∧
      initState.registeredResultMetrics = [] ∧
      (∀ s ∈ st0w.registeredResultMetrics, s ∈ st'.registeredResultMetrics) ∧
      (∀ m ∈ regNames st0w.registry, m ∈ regNames st'.registry)) :=
  ⟨by decide, claim_C8 c0 ls0 M0 st0w (by decide)⟩

/-- Helper for C9: one loop iteration preserves distinctness of
`registeredResultMetrics`, because a name is appended only when the
`contains` membership check returned false. -/
theorem reconcileEntry_nodup (c : AggregateCounts) (ls : LabelSet)
    (st : ExporterState) (e : String × Int) (st1 : ExporterState) (tr1 : List REvent)
    (hnd : st.registeredResultMetrics.Nodup)
    (hsucc : reconcileEntry c ls st e = some (st1, tr1)) :
    st1.registeredResultMetrics.Nodup := by
  by_cases hc : contains st.registeredResultMetrics (sanitizeExpName e.1) = true
  · rw [reconcileEntry_registered_eq c ls st e hc] at hsucc
    injection hsucc with hp
    injection hp with hA hB
    subst hA
    exact hnd
  · have hsnot : sanitizeExpName e.1 ∉ st.registeredResultMetrics := by
      intro hmem
      exact hc ((contains_iff _ _).mpr hmem)
    have hsucc' : (match mustRegister (.exp (sanitizeExpName e.1)) st.registry with
        | none => (none : Option (ExporterState × List REvent))
        | some r2 =>
          some ({ registry := setSeriesValue .failedExperiments ls c.failed
                    (setSeriesValue .passedExperiments ls c.passed
                      (setSeriesValue .experimentsTotal ls c.total
                        (setSeriesValue (.exp (sanitizeExpName e.1)) ls e.2 r2))),
                  registeredResultMetrics :=
                    st.registeredResultMetrics ++ [sanitizeExpName e.1] },
            [.register (.exp (sanitizeExpName e.1)),
             .set (.exp (sanitizeExpName e.1)) ls e.2,
             .set .experimentsTotal ls c.total, .set .passedExperiments ls c.passed,
             .set .failedExperiments ls c.failed])) = some (st1, tr1) := by
      rw [← hsucc]
      show _ = (if contains st.registeredResultMetrics (sanitizeExpName e.1) = true
        then _ else _)
      rw [if_neg hc]
    cases hm : mustRegister (.exp (sanitizeExpName e.1)) st.registry with
    | none =>
      rw [hm] at hsucc'
      exact absurd hsucc' (by simp)
    | some r2 =>
      rw [hm] at hsucc'
      injection hsucc' with hp
      injection hp with hA hB
      rw [← hA]
      refine List.Nodup.append hnd (List.nodup_singleton _) ?_
      intro x hx hx'
      rw [List.mem_singleton] at hx'
      subst hx'
      exact hsnot hx

/-- C9: `registeredResultMetrics` never holds the same sanitized name twice:
if it is duplicate-free before a reconciliation pass, it is duplicate-free
after it, for every verdict map. -/
theorem claim_C9 (c : AggregateCounts) (ls : LabelSet) (M : List (String × Int))
    (st st' : ExporterState) (tr : List REvent)
    (h1 : st.registeredResultMetrics.Nodup)
    (h2 : reconcile c ls M st = some (st', tr)) :
    st'.registeredResultMetrics.Nodup := by
  induction M generalizing st tr with
  | nil =>
    have h2' : some (st, ([] : List REvent)) = some (st', tr) := h2
    injection h2' with hp
    injection hp with hA hB
    rw [← hA]
    exact h1
  | cons e rest ih =>
    have h2' : (match reconcileEntry c ls st e with
        | none => none
        | some (st1, tr1) =>
          match reconcile c ls rest st1 with
          | none => none
          | some (st2, tr2) => some (st2, tr1 ++ tr2)) = some (st', tr) := h2
    cases he : reconcileEntry c ls st e with
    | none =>
      rw [he] at h2'
      exact absurd h2' (by simp)
    | some pair =>
      obtain ⟨st1, tr1⟩ := pair
      rw [he] at h2'
      have h2'' : (match reconcile c ls rest st1 with
          | none => none
          | some (st2, tr2) => some (st2, tr1 ++ tr2)) = some (st', tr) := h2'
      cases hr : reconcile c ls rest st1 with
      | none =>
        rw [hr] at h2''
        exact absurd h2'' (by simp)
      | some pair2 =>
        obtain ⟨st2, tr2⟩ := pair2
        rw [hr] at h2''
        have h2''' : some (st2, tr1 ++ tr2) = some (st', tr) := h2''
        injection h2''' with hp
        injection hp with hA hB
        subst hA
        exact ih st1 tr2 (reconcileEntry_nodup c ls st e st1 tr1 h1 he) hr

/-- C9, witness at the concrete scenario. -/
theorem claim_C9_witness :
    initState.registeredResultMetrics.Nodup ∧ st0w.registeredResultMetrics.Nodup :=
  ⟨by decide, claim_C9 c0 ls0 M0 initState st0w tr0w (by decide) (by decide)⟩

/-- C10: when `CHAOSENGINE` or `APP_UUID` is empty, `main` never registers a
fixed gauge, never starts the exporter loop and never serves the endpoint;
when config loading succeeded (the only way to even reach the validation),
its whole observable behaviour is the fatal env log followed by exit. -/
theorem claim_C10 (cfgOk : Bool) (engine uuid : String)
    (h : engine = "" ∨ uuid = "") :
    (∀ n, MainEvent.registerFixed n ∉ mainSteps cfgOk engine uuid) ∧
    MainEvent.startExporterLoop ∉ mainSteps cfgOk engine uuid ∧
    MainEvent.serveMetrics ∉ mainSteps cfgOk engine uuid ∧
    (cfgOk = true → mainSteps cfgOk engine uuid = [.logFatalEnv]) := by
  cases cfgOk with
  | false =>
    refine ⟨?_, ?_, ?_, ?_⟩
    · intro n; simp [mainSteps]
    · simp [mainSteps]
    · simp [mainSteps]
    · intro hcfg; exact absurd hcfg (by simp)
  | true =>
    have hsteps : mainSteps true engine uuid = [.logFatalEnv] := by
      simp only [mainSteps, Bool.true_eq_false, if_false]
      rw [if_pos h]
    refine ⟨?_, ?_, ?_, fun _ => hsteps⟩
    · intro n; rw [hsteps]; simp
    · rw [hsteps]; simp
    · rw [hsteps]; simp

/-- C10, witness: empty `CHAOSENGINE`, non-empty `APP_UUID`. -/
theorem claim_C10_witness :
    ((("" : String) = "" ∨ ("uuid" : String) = "")) ∧
    (∀ n, MainEvent.registerFixed n ∉ mainSteps true "" "uuid") ∧
    MainEvent.startExporterLoop ∉ mainSteps true "" "uuid" ∧
    MainEvent.serveMetrics ∉ mainSteps true "" "uuid" ∧
    (true = true → mainSteps true "" "uuid" = [.logFatalEnv]) :=
  ⟨Or.inl rfl, claim_C10 true "" "uuid" (Or.inl rfl)⟩

end ChaosExporter
